import Mathlib

/-
Verification of the data-enrichment, formatting, lookup and chat-context
layer of the investment-dashboard application in src/app.py.

Modelling conventions:
* Python strings are lists of characters (`Str`); `String` literals appear
  in statements via `.toList`.
* Python floats are modelled as rational numbers; floating-point specials
  (infinities, NaN) and digit-group underscores in numeric literals are
  outside the rational model.
* Values that can reach `float(...)` are modelled by `PyVal`; the
  exceptions `float` can raise there are `ValueError` and `TypeError`.
* A pandas cell or dict entry that may be absent is an `Option` field.
-/

attribute [local semireducible] Rat.mul Rat.inv Rat.add Rat.sub

namespace App

abbrev Str := List Char

/-- Python whitespace stripping uses the ASCII whitespace characters
recognised by `Char.isWhitespace`. -/
abbrev ws : Char → Bool := Char.isWhitespace

/-- Python `s.strip()`: remove leading and trailing whitespace. -/
def stripBoth (s : Str) : Str := (s.dropWhile ws).rdropWhile ws

/-- Python `s.lower()` on the ASCII range (`Char.toLower` is exactly the
ASCII lower-casing map). -/
def lowerStr (s : Str) : Str := s.map Char.toLower

/-- `normalize_company_name` (src/app.py:306-311): a `pd.isna` input maps
to the empty string; otherwise remove every `'.'` and `','`, strip
surrounding whitespace, and lower-case. -/
def normalize_company_name (name : Option Str) : Str :=
  match name with
  | Option.none => []
  | some s => lowerStr (stripBoth (s.filter (fun c => !(c == '.' || c == ','))))

/-- A Python value that can flow into `float(...)` in the source.  `obj`
stands for any further non-numeric, non-string object (list, dict, ...),
all of which make `float` raise `TypeError`. -/
inductive PyVal where
  | int (n : Int)
  | float (q : Rat)
  | bool (b : Bool)
  | str (s : Str)
  | pynone
  | obj
deriving DecidableEq

/-- The modelled Python exceptions: the two `float(...)` can raise, plus
an arbitrary exception raised by an external API call. -/
inductive PyErr where
  | valueError
  | typeError
  | apiError (msg : Str)
deriving DecidableEq

/-- A run of decimal digits read as a natural number. -/
def digitsVal (l : Str) : Nat := l.foldl (fun a c => 10 * a + (c.toNat - 48)) 0

/-- `10 ^ e` as a rational, for an integer exponent. -/
def pow10 (e : Int) : Rat :=
  if 0 ≤ e then ((10 ^ e.toNat : Nat) : Rat) else 1 / ((10 ^ (-e).toNat : Nat) : Rat)

/-- Parse the exponent tail of a float literal: either empty, or `e`/`E`
followed by an optional sign and a nonempty digit run. -/
def expVal? (r : Str) : Option Int :=
  match r with
  | [] => some 0
  | c :: rest =>
    if c == 'e' || c == 'E' then
      let sgnRest : Int × Str :=
        match rest with
        | '+' :: rr => (1, rr)
        | '-' :: rr => (-1, rr)
        | rr => (1, rr)
      if sgnRest.2 ≠ [] ∧ sgnRest.2.all Char.isDigit then
        some (sgnRest.1 * digitsVal sgnRest.2)
      else Option.none
    else Option.none

/-- Python `float(s)` on a string, restricted to finite decimal literals:
optional surrounding whitespace, optional sign, a digit run with an
optional fractional part (at least one digit overall), and an optional
decimal exponent. -/
def parseFloat? (s : Str) : Option Rat :=
  let t := stripBoth s
  let sgnRest : Rat × Str :=
    match t with
    | '+' :: r => (1, r)
    | '-' :: r => (-1, r)
    | r => (1, r)
  let t1 := sgnRest.2
  let ip := t1.takeWhile Char.isDigit
  let r1 := t1.dropWhile Char.isDigit
  let fpRest : Str × Str :=
    match r1 with
    | '.' :: rr => (rr.takeWhile Char.isDigit, rr.dropWhile Char.isDigit)
    | _ => ([], r1)
  let fp := fpRest.1
  if ip = [] ∧ fp = [] then Option.none
  else
    match expVal? fpRest.2 with
    | some e =>
      some (sgnRest.1 * (digitsVal ip + (digitsVal fp : Rat) / ((10 ^ fp.length : Nat) : Rat)) * pow10 e)
    | Option.none => Option.none

/-- Python `float(value)` over the modelled value types. -/
def pyFloat (v : PyVal) : Except PyErr Rat :=
  match v with
  | .int n => .ok n
  | .float q => .ok q
  | .bool b => .ok (if b then 1 else 0)
  | .str s =>
    match parseFloat? s with
    | some q => .ok q
    | Option.none => .error .valueError
  | .pynone => .error .typeError
  | .obj => .error .typeError

/-- Round a rational to the nearest integer, ties to even (the rounding
used by Python float formatting at exactly representable midpoints). -/
def roundHalfEven (q : Rat) : Int :=
  let f := q.floor
  if q - f < 1/2 then f
  else if (1 : Rat)/2 < q - f then f + 1
  else if f % 2 = 0 then f else f + 1

/-- Decimal digits of a natural number, most significant first. -/
def natDigits (n : Nat) : Str := Nat.toDigits 10 n

/-- Helper for thousands grouping: on a reversed digit string, insert a
`','` after every third character that still has digits following. -/
def groupRev (l : Str) : Str :=
  match l with
  | a :: b :: c :: d :: rest => a :: b :: c :: ',' :: groupRev (d :: rest)
  | other => other

/-- `n` printed with thousands separators (the `,` format flag). -/
def natGrouped (n : Nat) : Str := (groupRev (natDigits n).reverse).reverse

/-- Python `f-string` fixed-point formatting with two decimals on the
rational model: `grouped := false` is `:.2f`, `grouped := true` is
`:,.2f`. -/
def fixed2 (grouped : Bool) (q : Rat) : Str :=
  let c := roundHalfEven (100 * q)
  let a := c.natAbs
  let intPart := if grouped then natGrouped (a / 100) else natDigits (a / 100)
  let fracDigits := natDigits (a % 100)
  let fracPart := if a % 100 < 10 then '0' :: fracDigits else fracDigits
  (if c < 0 then ['-'] else []) ++ intPart ++ '.' :: fracPart

/-- `format_market_cap` (src/app.py:313-324).  The `try` body is the `.ok`
branch of `pyFloat`; `except (ValueError, TypeError)` returns `"N/A"`.
The result is an `Except` so that an uncaught exception would be visible
in the model; the theorems below show that none escapes. -/
def format_market_cap (value : PyVal) : Except PyErr Str :=
  match pyFloat value with
  | .ok v =>
    .ok (if (1000000000 : Rat) ≤ v then '$' :: fixed2 false (v / 1000000000) ++ ['B']
         else if (1000000 : Rat) ≤ v then '$' :: fixed2 false (v / 1000000) ++ ['M']
         else '$' :: fixed2 true v)
  | .error e =>
    match e with
    | .valueError => .ok ("N/A".toList)
    | .typeError => .ok ("N/A".toList)
    | .apiError m => .error (.apiError m)

/-! ### Data model of `load_data` and the company views -/

/-- One row of the reference-metadata CSV.  A field is `Option.none` when
its column is absent, which is exactly when `row.get(col, 'N/A')` in the
source falls back to its default. -/
structure MetaRow where
  name : Option Str
  industry : Option Str
  market_cap : Option PyVal
  country : Option Str
  website : Option Str
  symbol : Option Str
deriving DecidableEq

/-- One record of `data['company_analysis']`.  The five enrichment fields
are `Option`s because `load_data` only adds those dict keys when a
metadata row matches. -/
structure CompanyData where
  recommendation : Str
  ultimate_strength : PyVal
  scores : List (Str × PyVal)
  explanation : Option Str
  industry : Option Str
  market_cap : Option PyVal
  country : Option Str
  website : Option Str
  symbols : Option Str
deriving DecidableEq

/-- `combined_df['normalized_name'] = combined_df['name'].apply(normalize_company_name)`
(src/app.py:281): the metadata table paired with its derived
normalized-name column. -/
def addNormalizedName (rows : List MetaRow) : List (MetaRow × Str) :=
  rows.map (fun r => (r, normalize_company_name r.name))

/-- The enrichment step of `load_data` (src/app.py:284-295) for one
company: take the first row of the combined table whose `normalized_name`
column equals the company's normalized name (`matching_row.iloc[0]`) and
copy its five metadata fields, with the `'N/A'` defaults of `row.get`;
when no row matches the record is left unchanged. -/
def enrichCompany (combined_df : List (MetaRow × Str)) (company_name : Str)
    (company_data : CompanyData) : CompanyData :=
  let normalized_name := normalize_company_name (some company_name)
  match combined_df.find? (fun r => r.2 == normalized_name) with
  | some r =>
    { company_data with
      industry := some (r.1.industry.getD ("N/A".toList))
      market_cap := some (r.1.market_cap.getD (PyVal.str ("N/A".toList)))
      country := some (r.1.country.getD ("N/A".toList))
      website := some (r.1.website.getD ("N/A".toList))
      symbols := some (r.1.symbol.getD ("N/A".toList)) }
  | Option.none => company_data

/-- The data transformation of `load_data` (src/app.py:269-297): derive
the normalized-name column of the metadata table, then enrich every
company record, keyed by company name, in place. -/
def load_data (companies : List (Str × CompanyData)) (rows : List MetaRow) :
    List (Str × CompanyData) :=
  let combined_df := addNormalizedName rows
  companies.map (fun p => (p.1, enrichCompany combined_df p.1 p.2))

/-- The company search filter of `show_company_analysis`
(src/app.py:388-395): the S&P-500 checkboxes restrict by membership of
the normalized name in the index set, and the lower-cased search text
must occur in the lower-cased company name or in one of the
comma-separated entries of the record's `symbols` value (which defaults
to the empty string and is only consulted when non-empty). -/
def filtered_companies (sp500_companies : List Str)
    (filter_sp500 filter_non_sp500 : Bool) (search_text : Str)
    (company_analysis : List (Str × CompanyData)) : List Str :=
  let search_term := lowerStr search_text
  (company_analysis.filter (fun p =>
    ((!filter_sp500 || sp500_companies.contains (normalize_company_name (some p.1)))
      && (!filter_non_sp500 || !(sp500_companies.contains (normalize_company_name (some p.1)))))
    && (decide (search_term <:+: lowerStr p.1)
        || (!((p.2.symbols.getD []) == ([] : Str))
            && ((p.2.symbols.getD []).splitOn ',').any
                (fun sym => decide (search_term <:+: lowerStr sym)))))).map Prod.fst

/-! ### The chat feature -/

/-- Python `str(...)` rendering of the modelled values, as interpolated by
the f-strings of `prepare_context`.  The fraction rendering of a
non-integral rational stands in for Python's float repr; no claim depends
on its exact form. -/
def pyRender (v : PyVal) : Str :=
  match v with
  | .str s => s
  | .int n => (toString n).toList
  | .float q =>
    if q.den = 1 then (toString q.num).toList ++ (".0".toList)
    else (toString q.num).toList ++ '/' :: (toString q.den).toList
  | .bool b => if b then "True".toList else "False".toList
  | .pynone => "None".toList
  | .obj => "<object>".toList

/-- The data bundle consumed by the chat feature: the ordered
company-analysis mapping and the sector-trend mapping. -/
structure ChatData where
  company_analysis : List (Str × CompanyData)
  consolidated_trends : List (Str × Str)

/-- The block of lines `prepare_context` appends for a matching company
(src/app.py:35-39). -/
def companyBlock (company : Str) (details : CompanyData) : List Str :=
  [("Company Analysis for ".toList) ++ company ++ [':'],
   ("Recommendation: ".toList) ++ details.recommendation,
   ("Ultimate Strength: ".toList) ++ pyRender details.ultimate_strength,
   ("Industry: ".toList) ++ details.industry.getD ("N/A".toList),
   ("Explanation: ".toList) ++ details.explanation.getD []]

/-- The block `prepare_context` appends for a matching sector
(src/app.py:44-45); the first line carries the leading newline of the
source f-string. -/
def sectorBlock (sector : Str) (analysis : Str) : List Str :=
  ['\n' :: ("Sector Analysis for ".toList) ++ sector ++ [':'], analysis]

/-- Python `sep.join(l)` for a one-character separator. -/
def joinSep (sep : Char) : List Str → Str
  | [] => []
  | [x] => x
  | x :: xs => x ++ sep :: joinSep sep xs

/-- `prepare_context` (src/app.py:28-47): collect the blocks of every
company whose lower-cased name occurs in the lower-cased query, then the
blocks of every matching sector, and join the lines with newlines. -/
def prepare_context (data : ChatData) (query : Str) : Str :=
  joinSep '\n'
    ((data.company_analysis.filter
        (fun p => decide (lowerStr p.1 <:+: lowerStr query))).flatMap
        (fun p => companyBlock p.1 p.2)
      ++ (data.consolidated_trends.filter
        (fun p => decide (lowerStr p.1 <:+: lowerStr query))).flatMap
        (fun p => sectorBlock p.1 p.2))

/-- A chat message (role and content). -/
structure Message where
  role : Str
  content : Str

/-- The response shapes `extract_response_content` distinguishes
(src/app.py:83-106): a list of rendered blocks, an object with a
`content` attribute, a plain string, or any other object together with
its `str()` rendering. -/
inductive ApiResponse where
  | listShape (items : List Str)
  | contentShape (content : Str)
  | strShape (s : Str)
  | otherShape (rendering : Str)

/-- Scan for the first occurrence of the marker `text="` and return the
remainder after it. -/
def afterMarker : Str → Option Str
  | [] => Option.none
  | c :: tail =>
    if ("text=".toList ++ ['"']).isPrefixOf (c :: tail) then some ((c :: tail).drop 6)
    else afterMarker tail

/-- The regex `text="(.*?)"` with DOTALL of `extract_response_content`:
the shortest capture after the first `text="`, requiring a closing
quote. -/
def findTextGroup (s : Str) : Option Str :=
  match afterMarker s with
  | some rest =>
    let cap := rest.takeWhile (fun c => !(c == '"'))
    if cap.length < rest.length then some cap else Option.none
  | Option.none => Option.none

/-- `extract_response_content` (src/app.py:83-106). -/
def extract_response_content (response : ApiResponse) : Str :=
  match response with
  | .listShape items => joinSep ' ' (items.filterMap findTextGroup)
  | .contentShape content => content
  | .strShape s => s
  | .otherShape s => s

/-- The system string passed to the API call: the fixed system prompt
followed by the assembled context (src/app.py:72). -/
def systemFor (system_prompt : Str) (data : ChatData) (query : Str) : Str :=
  system_prompt ++ ("\n\nRelevant Data:\n".toList) ++ prepare_context data query

/-- The message list sent to the model: the last five stored turns
followed by the current query (src/app.py:52-67). -/
def messagesFor (history : List Message) (query : Str) : List Message :=
  history.drop (history.length - 5) ++ [⟨"user".toList, query⟩]

/-! ### Concrete sample data used by witnesses and counterexamples -/

/-- A sample analysis record as it stands before enrichment: no
enrichment keys present. -/
def noMatchRecord : CompanyData :=
  { recommendation := "Hold".toList, ultimate_strength := PyVal.int 5, scores := [],
    explanation := some ("pending".toList), industry := Option.none,
    market_cap := Option.none, country := Option.none, website := Option.none,
    symbols := Option.none }

/-- A sample metadata row for `"Alpha Inc"`. -/
def alphaRow : MetaRow :=
  { name := some ("Alpha Inc".toList), industry := some ("Tech".toList),
    market_cap := some (PyVal.int 5000000000), country := some ("USA".toList),
    website := some ("https://alpha.example".toList), symbol := some ("ALF".toList) }

/-- A second metadata row whose name also normalizes to `"alpha inc"`. -/
def alphaRow2 : MetaRow :=
  { name := some ("ALPHA, INC.".toList), industry := some ("Telecom".toList),
    market_cap := some (PyVal.int 7000000000), country := some ("DEU".toList),
    website := some ("https://alpha2.example".toList), symbol := some ("ALF2".toList) }

/-- A sample enriched record with two comma-separated ticker symbols. -/
def brkRecord : CompanyData :=
  { recommendation := "Invest".toList, ultimate_strength := PyVal.int 8, scores := [],
    explanation := some ("strong moat".toList), industry := some ("insurance".toList),
    market_cap := Option.none, country := Option.none, website := Option.none,
    symbols := some ("BRK.A, BRK.B".toList) }

/-- A sample chat data bundle with one company and one sector. -/
def chatDataEx : ChatData :=
  { company_analysis := [(("Berkshire Hathaway".toList), brkRecord)],
    consolidated_trends := [(("insurance".toList), ("premiums are rising".toList))] }

/-- The fixed apology returned when the API call raises
(src/app.py:81). -/
def apologyMessage : Str :=
  "I apologize, but I encountered an error. Could you please rephrase your question?".toList

/-- `get_response` (src/app.py:49-81): call the external
conversational-completion API (a parameter of the model) with the
assembled system prompt and messages; on success extract the content, on
any exception return the fixed apology string. -/
def get_response (create : Str → List Message → Except PyErr ApiResponse)
    (system_prompt : Str) (data : ChatData) (history : List Message)
    (query : Str) : Str :=
  match create (systemFor system_prompt data query) (messagesFor history query) with
  | .ok response => extract_response_content response
  | .error _ => apologyMessage

end App

deriving instance DecidableEq for Except

namespace App

/-! ### Character-level facts about ASCII lower-casing -/

theorem char_eq_of_toNat_eq {a b : Char} (h : a.toNat = b.toNat) : a = b :=
  Char.ext (UInt32.ext h)

theorem toNat_ofNat_valid (n : Nat) (h : n < 55296) : (Char.ofNat n).toNat = n := by
  unfold Char.ofNat
  rw [dif_pos (Or.inl h)]
  rfl

theorem toNat_toLower_of_upper {c : Char} (h : c.toNat ≥ 65 ∧ c.toNat ≤ 90) :
    c.toLower.toNat = c.toNat + 32 := by
  unfold Char.toLower
  rw [if_pos h, toNat_ofNat_valid _ (by omega)]

theorem toLower_eq_of_not_upper {c : Char} (h : ¬(c.toNat ≥ 65 ∧ c.toNat ≤ 90)) :
    c.toLower = c := by
  unfold Char.toLower
  rw [if_neg h]

theorem toLower_toLower (c : Char) : c.toLower.toLower = c.toLower := by
  by_cases h : c.toNat ≥ 65 ∧ c.toNat ≤ 90
  · have h2 := toNat_toLower_of_upper h
    exact toLower_eq_of_not_upper (by omega)
  · rw [toLower_eq_of_not_upper h, toLower_eq_of_not_upper h]

theorem isWhitespace_iff_toNat (c : Char) :
    c.isWhitespace = true ↔ (c.toNat = 32 ∨ c.toNat = 9 ∨ c.toNat = 13 ∨ c.toNat = 10) := by
  unfold Char.isWhitespace
  simp only [Bool.or_eq_true, decide_eq_true_eq]
  constructor
  · rintro (((h | h) | h) | h) <;> subst h <;> decide
  · rintro (h | h | h | h)
    · exact Or.inl (Or.inl (Or.inl (char_eq_of_toNat_eq (h.trans (by decide)))))
    · exact Or.inl (Or.inl (Or.inr (char_eq_of_toNat_eq (h.trans (by decide)))))
    · exact Or.inl (Or.inr (char_eq_of_toNat_eq (h.trans (by decide))))
    · exact Or.inr (char_eq_of_toNat_eq (h.trans (by decide)))

theorem isWhitespace_toLower (c : Char) : c.toLower.isWhitespace = c.isWhitespace := by
  by_cases h : c.toNat ≥ 65 ∧ c.toNat ≤ 90
  · have h2 := toNat_toLower_of_upper h
    have e1 : c.toLower.isWhitespace = false := by
      rw [Bool.eq_false_iff]
      intro hw
      have := (isWhitespace_iff_toNat _).mp hw
      omega
    have e2 : c.isWhitespace = false := by
      rw [Bool.eq_false_iff]
      intro hw
      have := (isWhitespace_iff_toNat _).mp hw
      omega
    rw [e1, e2]
  · rw [toLower_eq_of_not_upper h]

/-- Lower-casing does not create or destroy the punctuation characters
removed by `normalize_company_name`. -/
theorem keepPunct_toLower (c : Char) :
    (!(c.toLower == '.' || c.toLower == ',')) = (!(c == '.' || c == ',')) := by
  have hdot : ('.' : Char).toNat = 46 := by decide
  have hcom : (',' : Char).toNat = 44 := by decide
  by_cases h : c.toNat ≥ 65 ∧ c.toNat ≤ 90
  · have h2 := toNat_toLower_of_upper h
    have a1 : (c.toLower == '.') = false := by
      rw [beq_eq_false_iff_ne]
      intro he
      have := congrArg Char.toNat he
      rw [h2, hdot] at this
      omega
    have a2 : (c.toLower == ',') = false := by
      rw [beq_eq_false_iff_ne]
      intro he
      have := congrArg Char.toNat he
      rw [h2, hcom] at this
      omega
    have a3 : (c == '.') = false := by
      rw [beq_eq_false_iff_ne]
      intro he
      have := congrArg Char.toNat he
      rw [hdot] at this
      omega
    have a4 : (c == ',') = false := by
      rw [beq_eq_false_iff_ne]
      intro he
      have := congrArg Char.toNat he
      rw [hcom] at this
      omega
    rw [a1, a2, a3, a4]
  · rw [toLower_eq_of_not_upper h]

/-! ### Facts about whitespace stripping -/

theorem mem_of_mem_stripBoth {c : Char} {l : Str} (h : c ∈ stripBoth l) : c ∈ l := by
  unfold stripBoth at h
  have h1 : List.Sublist (l.dropWhile ws) l := List.dropWhile_sublist ws
  have h2 : (l.dropWhile ws).rdropWhile ws <+: l.dropWhile ws :=
    List.rdropWhile_prefix ws (l.dropWhile ws)
  exact h1.subset (h2.sublist.subset h)

theorem ws_comp_toLower : (ws ∘ Char.toLower) = ws :=
  funext isWhitespace_toLower

theorem dropWhile_ws_map_toLower (l : Str) :
    (l.map Char.toLower).dropWhile ws = (l.dropWhile ws).map Char.toLower := by
  rw [List.dropWhile_map, ws_comp_toLower]

theorem rdropWhile_ws_map_toLower (l : Str) :
    (l.map Char.toLower).rdropWhile ws = (l.rdropWhile ws).map Char.toLower := by
  unfold List.rdropWhile
  rw [← List.map_reverse, List.dropWhile_map, ws_comp_toLower, ← List.map_reverse]

theorem stripBoth_map_toLower (l : Str) :
    stripBoth (l.map Char.toLower) = (stripBoth l).map Char.toLower := by
  unfold stripBoth
  rw [dropWhile_ws_map_toLower, rdropWhile_ws_map_toLower]

theorem bool_false_of_dropWhile_eq_cons {α : Type} {p : α → Bool} {l r : List α} {x : α}
    (h : l.dropWhile p = x :: r) : p x = false := by
  induction l with
  | nil => simp at h
  | cons a t ih =>
    rw [List.dropWhile_cons] at h
    by_cases hp : p a
    · rw [if_pos hp] at h
      exact ih h
    · rw [if_neg hp] at h
      injection h with h1 h2
      subst h1
      exact Bool.eq_false_iff.mpr hp

theorem stripBoth_stripBoth (s : Str) : stripBoth (stripBoth s) = stripBoth s := by
  unfold stripBoth
  have hdw : ((s.dropWhile ws).rdropWhile ws).dropWhile ws = (s.dropWhile ws).rdropWhile ws := by
    rcases hb : (s.dropWhile ws).rdropWhile ws with _ | ⟨x, t⟩
    · rfl
    · obtain ⟨tail, ht⟩ := List.rdropWhile_prefix ws (s.dropWhile ws)
      rw [hb] at ht
      have hds : s.dropWhile ws = x :: (t ++ tail) := by
        rw [← ht]
        rfl
      have hpx : ws x = false := bool_false_of_dropWhile_eq_cons hds
      rw [List.dropWhile_cons, hpx]
      simp
  rw [hdw, List.rdropWhile_idempotent]

/-! ### C3: properties of `normalize_company_name` -/

/-- C3: `normalize_company_name` is idempotent, maps a missing/NaN input
to the empty string, and identifies `"Alpha, Inc."` with `"alpha inc"`
(case and punctuation insensitivity). -/
theorem normalize_company_name_props :
    (∀ x : Str,
      normalize_company_name (some (normalize_company_name (some x)))
        = normalize_company_name (some x))
    ∧ normalize_company_name Option.none = []
    ∧ normalize_company_name (some ("Alpha, Inc.".toList))
        = normalize_company_name (some ("alpha inc".toList)) := by
  refine ⟨?_, rfl, by decide⟩
  intro x
  simp only [normalize_company_name, lowerStr]
  have hfil :
      ((stripBoth (x.filter (fun c => !(c == '.' || c == ',')))).map Char.toLower).filter
          (fun c => !(c == '.' || c == ','))
        = (stripBoth (x.filter (fun c => !(c == '.' || c == ',')))).map Char.toLower := by
    rw [List.filter_eq_self]
    intro a ha
    obtain ⟨d, hd, rfl⟩ := List.mem_map.mp ha
    rw [keepPunct_toLower]
    exact (List.mem_filter.mp (mem_of_mem_stripBoth hd)).2
  rw [hfil, stripBoth_map_toLower, stripBoth_stripBoth, List.map_map]
  congr 1
  funext c
  exact toLower_toLower c

/-! ### C1: the spec's example values for `format_market_cap` -/

/-- C1 counterexample: the spec's four example equations do not all hold,
because `750_000` is below the `10^6` threshold and is formatted with the
plain branch, not the `M` branch. -/
theorem format_market_cap_spec_examples_cex :
    ¬ (format_market_cap (.int 2500000000) = .ok ("$2.50B".toList)
       ∧ format_market_cap (.int 750000) = .ok ("$0.75M".toList)
       ∧ format_market_cap (.int 500) = .ok ("$500.00".toList)
       ∧ format_market_cap (.str ("not a number".toList)) = .ok ("N/A".toList)) := by
  decide

/-- C1 amended: the example values as the code computes them;
`format_market_cap(750_000)` is `"$750,000.00"`, the other three examples
are as the spec states. -/
theorem format_market_cap_examples :
    format_market_cap (.int 2500000000) = .ok ("$2.50B".toList)
    ∧ format_market_cap (.int 750000) = .ok ("$750,000.00".toList)
    ∧ format_market_cap (.int 500) = .ok ("$500.00".toList)
    ∧ format_market_cap (.str ("not a number".toList)) = .ok ("N/A".toList) := by
  decide

/-! ### C4: `format_market_cap` is total and never raises -/

/-- C4: on every modelled Python value `format_market_cap` returns a
string (the `Except` result is always `.ok`), and whenever the `float`
coercion fails the result is the sentinel `"N/A"`. -/
theorem format_market_cap_total (v : PyVal) :
    (∃ s, format_market_cap v = Except.ok s)
    ∧ ((pyFloat v).isOk = false → format_market_cap v = Except.ok ("N/A".toList)) := by
  cases v with
  | int n =>
    exact ⟨⟨_, rfl⟩, fun hf => by simp [pyFloat, Except.isOk, Except.toBool] at hf⟩
  | float q =>
    exact ⟨⟨_, rfl⟩, fun hf => by simp [pyFloat, Except.isOk, Except.toBool] at hf⟩
  | bool b =>
    exact ⟨⟨_, rfl⟩, fun hf => by simp [pyFloat, Except.isOk, Except.toBool] at hf⟩
  | str s =>
    cases hp : parseFloat? s with
    | some q =>
      have hv : format_market_cap (.str s) = format_market_cap (.float q) := by
        simp only [format_market_cap, pyFloat, hp]
      refine ⟨?_, fun hf => ?_⟩
      · rw [hv]
        exact ⟨_, rfl⟩
      · simp [pyFloat, hp, Except.isOk, Except.toBool] at hf
    | none =>
      have hv : format_market_cap (.str s) = Except.ok ("N/A".toList) := by
        simp only [format_market_cap, pyFloat, hp]
      exact ⟨⟨_, hv⟩, fun _ => hv⟩
  | pynone => exact ⟨⟨_, rfl⟩, fun _ => rfl⟩
  | obj => exact ⟨⟨_, rfl⟩, fun _ => rfl⟩

theorem format_market_cap_total_witness :
    format_market_cap PyVal.pynone = Except.ok ("N/A".toList) :=
  (format_market_cap_total PyVal.pynone).2 (by decide)

/-! ### C10: numeric strings are coerced like numbers -/

/-- C10: a string that parses as a finite float is formatted exactly like
the parsed number, and in particular does not yield the sentinel. -/
theorem format_market_cap_numeric_string (s : Str) (q : Rat)
    (h : parseFloat? s = some q) :
    format_market_cap (PyVal.str s) = format_market_cap (PyVal.float q)
    ∧ format_market_cap (PyVal.str s) ≠ Except.ok ("N/A".toList) := by
  have he : format_market_cap (PyVal.str s) = format_market_cap (PyVal.float q) := by
    simp only [format_market_cap, pyFloat, h]
  refine ⟨he, ?_⟩
  rw [he]
  simp only [format_market_cap, pyFloat]
  intro heq
  injection heq with heq
  rw [show ("N/A".toList) = ['N', '/', 'A'] from rfl] at heq
  split_ifs at heq <;> (injection heq with h1 h2; exact absurd h1 (by decide))

theorem format_market_cap_numeric_string_witness :
    format_market_cap (PyVal.str ("2500000000".toList))
      = format_market_cap (PyVal.float 2500000000)
    ∧ format_market_cap (PyVal.str ("2500000000".toList)) ≠ Except.ok ("N/A".toList) :=
  format_market_cap_numeric_string _ _ (by decide)

/-! ### C2: behaviour of `load_data` on records with no metadata match -/

/-- C2 counterexample: a record whose normalized name matches no metadata
row does not come out of `load_data` with its five enrichment fields set
to `"N/A"` — the fields are simply not added. -/
theorem load_data_no_match_cex :
    ¬ (∀ p ∈ load_data [(("Beta Co".toList), noMatchRecord)] [],
        p.2.industry = some ("N/A".toList)
        ∧ p.2.market_cap = some (PyVal.str ("N/A".toList))
        ∧ p.2.country = some ("N/A".toList)
        ∧ p.2.website = some ("N/A".toList)
        ∧ p.2.symbols = some ("N/A".toList)) := by
  decide

/-- C2 (amended): when no metadata row normalizes to the record's
normalized name, `load_data`'s enrichment step leaves the record exactly
as it was — no enrichment keys are added — and no exception is raised. -/
theorem enrich_no_match (rows : List MetaRow) (name : Str) (cd : CompanyData)
    (h : ∀ r ∈ rows, normalize_company_name r.name ≠ normalize_company_name (some name)) :
    enrichCompany (addNormalizedName rows) name cd = cd := by
  have hf : (addNormalizedName rows).find?
      (fun r => r.2 == normalize_company_name (some name)) = Option.none := by
    rw [List.find?_eq_none]
    intro x hx
    obtain ⟨r, hr, rfl⟩ := List.mem_map.mp hx
    simp only [beq_iff_eq]
    exact h r hr
  simp [enrichCompany, hf]

theorem enrich_no_match_witness :
    enrichCompany (addNormalizedName [alphaRow]) ("Beta Co".toList) noMatchRecord
      = noMatchRecord :=
  enrich_no_match [alphaRow] ("Beta Co".toList) noMatchRecord (by decide)

/-! ### C5: the first matching metadata row wins -/

/-- C5: when one or more metadata rows normalize to the company's name,
the five enrichment fields are all copied from the first matching row in
source order, and the rest of the record is unchanged. -/
theorem enrich_first_match (pre post : List MetaRow) (row : MetaRow) (name : Str)
    (cd : CompanyData)
    (hmatch : normalize_company_name row.name = normalize_company_name (some name))
    (hpre : ∀ r ∈ pre, normalize_company_name r.name ≠ normalize_company_name (some name)) :
    enrichCompany (addNormalizedName (pre ++ row :: post)) name cd
      = { cd with
          industry := some (row.industry.getD ("N/A".toList)),
          market_cap := some (row.market_cap.getD (PyVal.str ("N/A".toList))),
          country := some (row.country.getD ("N/A".toList)),
          website := some (row.website.getD ("N/A".toList)),
          symbols := some (row.symbol.getD ("N/A".toList)) } := by
  have hf : (addNormalizedName (pre ++ row :: post)).find?
      (fun r => r.2 == normalize_company_name (some name))
      = some (row, normalize_company_name row.name) := by
    unfold addNormalizedName
    rw [List.map_append, List.find?_append]
    have h1 : (pre.map (fun r => (r, normalize_company_name r.name))).find?
        (fun r => r.2 == normalize_company_name (some name)) = Option.none := by
      rw [List.find?_eq_none]
      intro x hx
      obtain ⟨r, hr, rfl⟩ := List.mem_map.mp hx
      simp only [beq_iff_eq]
      exact hpre r hr
    rw [h1, List.map_cons]
    rw [Option.none_or]
    apply List.find?_cons_of_pos
    simp only [beq_iff_eq]
    exact hmatch
  simp [enrichCompany, hf]

theorem enrich_first_match_witness :
    enrichCompany (addNormalizedName ([] ++ alphaRow :: [alphaRow2]))
        ("Alpha, Inc.".toList) noMatchRecord
      = { noMatchRecord with
          industry := some (alphaRow.industry.getD ("N/A".toList)),
          market_cap := some (alphaRow.market_cap.getD (PyVal.str ("N/A".toList))),
          country := some (alphaRow.country.getD ("N/A".toList)),
          website := some (alphaRow.website.getD ("N/A".toList)),
          symbols := some (alphaRow.symbol.getD ("N/A".toList)) } :=
  enrich_first_match [] [alphaRow2] alphaRow ("Alpha, Inc.".toList) noMatchRecord
    (by decide) (by decide)

/-! ### C9: enrichment is frame-preserving -/

/-- C9: the enrichment step never touches the analysis fields
(`recommendation`, `ultimate_strength`, `scores`, `explanation`),
`load_data` preserves the record keys, and the derived metadata table is
the original rows paired with their normalized names and nothing else. -/
theorem load_data_frame (rows : List MetaRow) (companies : List (Str × CompanyData))
    (name : Str) (cd : CompanyData) :
    (enrichCompany (addNormalizedName rows) name cd).recommendation = cd.recommendation
    ∧ (enrichCompany (addNormalizedName rows) name cd).ultimate_strength = cd.ultimate_strength
    ∧ (enrichCompany (addNormalizedName rows) name cd).scores = cd.scores
    ∧ (enrichCompany (addNormalizedName rows) name cd).explanation = cd.explanation
    ∧ (load_data companies rows).map Prod.fst = companies.map Prod.fst
    ∧ (addNormalizedName rows).map Prod.fst = rows := by
  have hfields :
      (enrichCompany (addNormalizedName rows) name cd).recommendation = cd.recommendation
      ∧ (enrichCompany (addNormalizedName rows) name cd).ultimate_strength = cd.ultimate_strength
      ∧ (enrichCompany (addNormalizedName rows) name cd).scores = cd.scores
      ∧ (enrichCompany (addNormalizedName rows) name cd).explanation = cd.explanation := by
    rcases hfind : (addNormalizedName rows).find?
        (fun r => r.2 == normalize_company_name (some name)) with _ | r <;>
      simp [enrichCompany, hfind]
  refine ⟨hfields.1, hfields.2.1, hfields.2.2.1, hfields.2.2.2, ?_, ?_⟩
  · simp [load_data]
  · simp only [addNormalizedName, List.map_map]
    have hid : (Prod.fst ∘ fun r : MetaRow => (r, normalize_company_name r.name)) = id := rfl
    rw [hid, List.map_id]

/-! ### C6: the company/symbol search filter -/

theorem keyNodup_mem_eq {α β : Type} {l : List (α × β)} (hnd : (l.map Prod.fst).Nodup)
    {p q : α × β} (hp : p ∈ l) (hq : q ∈ l) (he : p.1 = q.1) : p = q := by
  induction l with
  | nil => cases hp
  | cons x t ih =>
    rw [List.map_cons, List.nodup_cons] at hnd
    cases hp with
    | head =>
      cases hq with
      | head => rfl
      | tail _ hq' =>
        have hm : q.1 ∈ t.map Prod.fst := List.mem_map_of_mem Prod.fst hq'
        rw [← he] at hm
        exact absurd hm hnd.1
    | tail _ hp' =>
      cases hq with
      | head =>
        have hm : p.1 ∈ t.map Prod.fst := List.mem_map_of_mem Prod.fst hp'
        rw [he] at hm
        exact absurd hm hnd.1
      | tail _ hq' => exact ih hnd.2 hp' hq'

/-- The search condition of `filtered_companies`, as a proposition: the
empty-symbols truthiness guard of the source is equivalent to plain
existential quantification over the comma-split symbol list. -/
theorem search_pred_iff (t nameL syms : Str) :
    (decide (t <:+: nameL)
      || (!(syms == ([] : Str))
          && (syms.splitOn ',').any (fun sym => decide (t <:+: lowerStr sym)))) = true
    ↔ (t <:+: nameL ∨ ∃ sym ∈ syms.splitOn ',', t <:+: lowerStr sym) := by
  cases syms with
  | nil =>
    have hsp : ([] : Str).splitOn ',' = [[]] := rfl
    rw [hsp]
    simp only [show (([] : Str) == ([] : Str)) = true from rfl, Bool.not_true,
      Bool.false_and, Bool.or_false, decide_eq_true_eq]
    constructor
    · exact Or.inl
    · rintro (h | ⟨sym, hsym, hinf⟩)
      · exact h
      · have hse : sym = ([] : Str) := by simpa using hsym
        subst hse
        have hte : t = [] := by simpa [lowerStr] using hinf
        subst hte
        exact List.nil_infix
  | cons c cs =>
    have hne : (((c :: cs) : Str) == ([] : Str)) = false := rfl
    rw [hne]
    simp only [Bool.not_false, Bool.true_and, Bool.or_eq_true, decide_eq_true_eq,
      List.any_eq_true]

/-- C6: with the two S&P-500 checkboxes off, a company is retained by the
search filter iff the lower-cased search text is a substring of the
lower-cased company name or of one of the comma-separated entries of its
`symbols` value. -/
theorem filtered_companies_iff (sp500_companies : List Str) (search_text name : Str)
    (cd : CompanyData) (company_analysis : List (Str × CompanyData))
    (hnd : (company_analysis.map Prod.fst).Nodup)
    (hmem : (name, cd) ∈ company_analysis) :
    name ∈ filtered_companies sp500_companies false false search_text company_analysis
      ↔ (lowerStr search_text <:+: lowerStr name
         ∨ ∃ sym ∈ (cd.symbols.getD []).splitOn ',',
             lowerStr search_text <:+: lowerStr sym) := by
  unfold filtered_companies
  constructor
  · intro h
    obtain ⟨p, hpf, hfst⟩ := List.mem_map.mp h
    obtain ⟨hpl, hpred⟩ := List.mem_filter.mp hpf
    have hpe : p = (name, cd) := keyNodup_mem_eq hnd hpl hmem hfst
    subst hpe
    simp only [Bool.not_false, Bool.true_or, Bool.true_and] at hpred
    exact (search_pred_iff _ _ _).mp hpred
  · intro h
    apply List.mem_map.mpr
    refine ⟨(name, cd), List.mem_filter.mpr ⟨hmem, ?_⟩, rfl⟩
    simp only [Bool.not_false, Bool.true_or, Bool.true_and]
    exact (search_pred_iff _ _ _).mpr h

theorem filtered_companies_witness :
    ("Berkshire Hathaway".toList) ∈ filtered_companies [] false false ("brk.b".toList)
      [(("Berkshire Hathaway".toList), brkRecord)] :=
  (filtered_companies_iff [] ("brk.b".toList) ("Berkshire Hathaway".toList) brkRecord
      [(("Berkshire Hathaway".toList), brkRecord)] (by decide) (by decide)).mpr (by decide)

/-! ### C7: chat context selection -/

theorem infix_of_label (label rest : Str) : rest <:+: label ++ rest :=
  ⟨label, [], by simp⟩

theorem infix_joinSep (sep : Char) (x : Str) (l : List Str) (h : x ∈ l) :
    x <:+: joinSep sep l := by
  induction l with
  | nil => cases h
  | cons a t ih =>
    cases h with
    | head =>
      cases t with
      | nil => exact List.infix_rfl
      | cons b u => exact ⟨[], sep :: joinSep sep (b :: u), by simp [joinSep]⟩
    | tail _ hmem =>
      cases t with
      | nil => cases hmem
      | cons b u =>
        have hsuf : (joinSep sep (b :: u)) <:+ joinSep sep (a :: b :: u) :=
          ⟨a ++ [sep], by simp [joinSep]⟩
        exact (ih hmem).trans hsuf.isInfix

/-- C7: if a known company name occurs (case-insensitively) in the query,
`prepare_context` contains that company's recommendation, ultimate
strength and explanation verbatim; and if no company name and no sector
name occurs in the query, the context is the empty string. -/
theorem prepare_context_props (data : ChatData) (query : Str) :
    (∀ name d, (name, d) ∈ data.company_analysis →
        lowerStr name <:+: lowerStr query →
        (d.recommendation <:+: prepare_context data query
         ∧ pyRender d.ultimate_strength <:+: prepare_context data query
         ∧ d.explanation.getD [] <:+: prepare_context data query))
    ∧ ((∀ p ∈ data.company_analysis, ¬ (lowerStr p.1 <:+: lowerStr query)) →
        (∀ p ∈ data.consolidated_trends, ¬ (lowerStr p.1 <:+: lowerStr query)) →
        prepare_context data query = []) := by
  constructor
  · intro name d hmem hinf
    have hline : ∀ x ∈ companyBlock name d, x <:+: prepare_context data query := by
      intro x hx
      apply infix_joinSep
      apply List.mem_append_left
      exact List.mem_flatMap.mpr
        ⟨(name, d), List.mem_filter.mpr ⟨hmem, by simpa using hinf⟩, hx⟩
    refine ⟨?_, ?_, ?_⟩
    · exact (infix_of_label ("Recommendation: ".toList) d.recommendation).trans
        (hline _ (by simp [companyBlock]))
    · exact (infix_of_label ("Ultimate Strength: ".toList)
        (pyRender d.ultimate_strength)).trans (hline _ (by simp [companyBlock]))
    · exact (infix_of_label ("Explanation: ".toList) (d.explanation.getD [])).trans
        (hline _ (by simp [companyBlock]))
  · intro h1 h2
    have e1 : data.company_analysis.filter
        (fun p => decide (lowerStr p.1 <:+: lowerStr query)) = [] := by
      rw [List.filter_eq_nil_iff]
      intro p hp
      simpa using h1 p hp
    have e2 : data.consolidated_trends.filter
        (fun p => decide (lowerStr p.1 <:+: lowerStr query)) = [] := by
      rw [List.filter_eq_nil_iff]
      intro p hp
      simpa using h2 p hp
    simp [prepare_context, e1, e2, joinSep]

theorem prepare_context_witness :
    (brkRecord.recommendation
        <:+: prepare_context chatDataEx ("tell me about berkshire hathaway".toList)
     ∧ pyRender brkRecord.ultimate_strength
        <:+: prepare_context chatDataEx ("tell me about berkshire hathaway".toList)
     ∧ brkRecord.explanation.getD []
        <:+: prepare_context chatDataEx ("tell me about berkshire hathaway".toList))
    ∧ prepare_context chatDataEx ("hello".toList) = [] :=
  ⟨(prepare_context_props chatDataEx ("tell me about berkshire hathaway".toList)).1
      ("Berkshire Hathaway".toList) brkRecord (by decide) (by decide),
   (prepare_context_props chatDataEx ("hello".toList)).2 (by decide) (by decide)⟩

/-! ### C8: model-call failures degrade to the apology message -/

/-- C8: if the external conversational-completion call raises any
exception, `get_response` returns the fixed apology string instead of
propagating the exception. -/
theorem get_response_apology (create : Str → List Message → Except PyErr ApiResponse)
    (system_prompt : Str) (data : ChatData) (history : List Message) (query : Str)
    (e : PyErr)
    (h : create (systemFor system_prompt data query) (messagesFor history query)
      = .error e) :
    get_response create system_prompt data history query = apologyMessage := by
  unfold get_response
  rw [h]

theorem get_response_apology_witness :
    get_response (fun _ _ => .error (.apiError ("rate limited".toList)))
      [] chatDataEx [] ("what should I buy?".toList) = apologyMessage :=
  get_response_apology _ [] chatDataEx [] ("what should I buy?".toList)
    (.apiError ("rate limited".toList)) rfl

end App
